import Mathlib

set_option maxRecDepth 16000
set_option maxHeartbeats 1000000

/-!
A shallow embedding in Lean 4 of the core pipeline of `src/bot.py`
(an OLX classifieds watcher bot): price normalization, offer extraction,
price-threshold matching, the seen-set/subscriber persistence helpers, and
the per-cycle orchestration `check_once`.

Modelling conventions:
- Python strings are Lean `String`s; character-level work happens on
  `List Char` (the `.data` of a `String`).
- Python `None`-able values are `Option`s; Python truthiness of a string is
  "nonempty", of an `Optional[int]` is "present and nonzero".
- Python `float` parsing followed by `int(...)` truncation is modelled
  bit-exactly: the decimal value is rounded to the nearest IEEE-754 double
  (round to nearest, ties to even, 53-bit significand), overflow to
  infinity makes `int(...)` raise (modelled as `none`, so `normalize_price`
  falls back to the digit extraction exactly as the `except` branch does),
  values below the normal range truncate to 0, and the rounded double is
  then truncated toward zero.
- BeautifulSoup per-candidate selector lookups are modelled as the fields
  of an `Element` record: each field is `some text` when the corresponding
  selector finds an element (with its stripped text) and `none` otherwise.
- A candidate whose processing raises an arbitrary exception is modelled by
  the `Candidate.err` constructor: the `try/except` in the extraction loop
  turns it into a skip.
- `re.search` for the specific pattern of at least six digits after a
  hyphen followed by a word boundary is modelled directly on the char list.
-/

namespace OlxBot

/-! ## Character / string helpers (Python semantics) -/

/-- ASCII lower-casing of one character, as Python `str.lower` acts on
ASCII input (all inputs of interest here are ASCII). -/
def asciiLower (c : Char) : Char :=
  if 'A' ≤ c ∧ c ≤ 'Z' then Char.ofNat (c.toNat + 32) else c

/-- Python `s.lower()` on ASCII strings. -/
def strLower (s : String) : String :=
  String.mk (s.data.map asciiLower)

/-- Does list `l` start with list `p`? -/
def listStarts : List Char → List Char → Bool
  | _, [] => true
  | [], _ :: _ => false
  | a :: as, b :: bs => a = b && listStarts as bs

/-- Python `sub in s` (contiguous substring containment) on char lists. -/
def listContains : List Char → List Char → Bool
  | [], sub => sub.isEmpty
  | a :: t, sub => listStarts (a :: t) sub || listContains t sub

/-- Python `sub in s` on strings. -/
def strContains (s sub : String) : Bool :=
  listContains s.data sub.data

/-- Python `s.startswith(p)` on strings. -/
def strStarts (s p : String) : Bool :=
  listStarts s.data p.data

/-- Value of a digit string, as Python `int(...)` on an all-digit string
(leading zeros allowed). -/
def natOfDigits (l : List Char) : Nat :=
  l.foldl (fun a c => a * 10 + (c.toNat - '0'.toNat)) 0

/-- Split a char list on `'.'`, as Python `s.split('.')`: always returns at
least one (possibly empty) segment. -/
def splitOnDot : List Char → List (List Char)
  | [] => [[]]
  | c :: t =>
    let r := splitOnDot t
    if c = '.' then [] :: r
    else
      match r with
      | [] => [[c]]
      | h :: t2 => (c :: h) :: t2

/-- Python `s.rstrip('/')` on char lists. -/
def rstripSlash (l : List Char) : List Char :=
  (l.reverse.dropWhile (fun c => c = '/')).reverse

/-- Python `s.split('/')[-1]` on char lists: the suffix after the last
`'/'` (the whole list when there is no `'/'`). -/
def lastSlashSegment (l : List Char) : List Char :=
  (l.reverse.takeWhile (fun c => c ≠ '/')).reverse

/-! ## Config constants (the CONFIG block of `bot.py`) -/

/-- `PRICE_THRESHOLDS` from the CONFIG block, as an ordered association
list (Python dicts preserve insertion order). -/
def PRICE_THRESHOLDS : List (String × Nat) :=
  [("iphone 11", 350),
   ("iphone 11 pro", 400),
   ("iphone 12", 400),
   ("iphone 12 pro", 750),
   ("iphone 12 pro max", 750),
   ("iphone 13", 700),
   ("iphone 13 pro", 1200),
   ("iphone 13 pro max", 1300),
   ("iphone 14", 1100),
   ("iphone 14 pro", 1500),
   ("iphone 14 plus", 1300),
   ("iphone 14 pro max", 1600),
   ("iphone 15", 1550),
   ("iphone 15 pro", 2400),
   ("iphone 15 pro max", 2700),
   ("iphone 16", 2900)]

/-- `MUST_CONTAIN` from the CONFIG block (empty in the source). -/
def MUST_CONTAIN : List String := []

/-! ## Price normalizer (`normalize_price`) -/

/-- Round the nonnegative rational `p / q` to the nearest integer, ties to
even — the rounding mode of IEEE-754 `float`. -/
def roundNE (p q : Nat) : Nat :=
  let n := p / q
  let r := p % q
  if 2 * r < q then n
  else if q < 2 * r then n + 1
  else if n % 2 = 0 then n else n + 1

/-- Fuel-indexed floor of the base-2 logarithm (the fuel only bounds the
recursion depth; any fuel at least `n` gives the exact value). -/
def natLog2 : Nat → Nat → Nat
  | 0, _ => 0
  | fuel + 1, n => if 2 ≤ n then natLog2 fuel (n / 2) + 1 else 0

/-- Floor of the base-2 logarithm of a positive natural. -/
def floorLog2 (n : Nat) : Nat :=
  natLog2 n n

/-- Floor of the base-2 logarithm of the rational `A / B`, for
`1 ≤ B ≤ A`: the unique `e` with `B * 2 ^ e ≤ A < B * 2 ^ (e + 1)`. -/
def natRatLog2 (A B : Nat) : Nat :=
  let e0 := floorLog2 A - floorLog2 B
  if B * 2 ^ e0 ≤ A then e0 else e0 - 1

/-- Model of Python `int(float(a / b))` for the nonnegative rational
`a / b` with `b > 0`: convert to the nearest IEEE-754 double (round to
nearest, ties to even) and truncate toward zero. Exponents are kept with
offset 1074, so the true binary exponent is `E - 1074`: values below
`2 ^ (-1074)` and subnormal values (true exponent below -1022) truncate
to 0; the 53-bit significand `m` of the scaled value is rounded with
`roundNE` and a carry into `2 ^ 53` bumps the exponent; a result beyond
the double range (true exponent above 1023) is infinity, where `int`
raises `OverflowError` — modelled as `none`, which sends
`normalize_price` into its digit-fallback `except` branch. -/
def floatTrunc (a b : Nat) : Option Nat :=
  if a = 0 then some 0
  else
    let A := a * 2 ^ 1074
    if A < b then some 0
    else
      let E := natRatLog2 A b
      if E < 52 then some 0
      else
        let m :=
          if E ≤ 1126 then roundNE (a * 2 ^ (1126 - E)) b
          else roundNE a (b * 2 ^ (E - 1126))
        let m2 := if m = 2 ^ 53 then 2 ^ 52 else m
        let E2 := if m = 2 ^ 53 then E + 1 else E
        if 2097 < E2 then none
        else some (if 1126 ≤ E2 then m2 * 2 ^ (E2 - 1126) else m2 / 2 ^ (1126 - E2))

/-- Model of Python `int(float(s))` for a string of digits and at most one
period: `float` succeeds when at least one digit is present, rounds the
decimal value to the nearest double, and `int` truncates it toward zero
(raising on infinity, modelled as `none`). -/
def pyFloatTruncInt (l : List Char) : Option Nat :=
  match splitOnDot l with
  | [i] =>
      if i ≠ [] ∧ i.all Char.isDigit then floatTrunc (natOfDigits i) 1 else none
  | [i, f] =>
      if (i ++ f) ≠ [] ∧ (i ++ f).all Char.isDigit then
        floatTrunc (natOfDigits (i ++ f)) (10 ^ f.length)
      else none
  | _ => none

/-- `normalize_price(text)`: strip everything but digits, commas and
periods; commas become periods; with more than one period, all segments
but the last are joined as the integer part; parse as a decimal and
truncate; on failure, fall back to all digits of the original text. -/
def normalize_price (text : String) : Option Nat :=
  if text = "" then none
  else
    let cleaned := text.data.filter (fun c => c.isDigit || c = ',' || c = '.')
    if cleaned = [] then none
    else
      let cleaned2 := cleaned.map (fun c => if c = ',' then '.' else c)
      let parts := splitOnDot cleaned2
      let cleaned3 :=
        if parts.length > 2 then
          parts.dropLast.flatten ++ '.' :: (parts.getLastD [])
        else cleaned2
      match pyFloatTruncInt cleaned3 with
      | some n => some n
      | none =>
          let digits := text.data.filter Char.isDigit
          if digits ≠ [] then some (natOfDigits digits) else none

/-! ## Match filter (`matches_price_threshold`, `contains_required_words`) -/

/-- The scan of `PRICE_THRESHOLDS.items()` inside
`matches_price_threshold`: the first key that is a substring of the
lowered title decides via `price <= max_price`; no match gives `false`. -/
def scanThresholds : List (String × Nat) → String → Nat → Bool
  | [], _, _ => false
  | (key, maxPrice) :: rest, titleL, price =>
      if strContains titleL key then decide (price ≤ maxPrice)
      else scanThresholds rest titleL price

/-- `matches_price_threshold(title, price_pln)`. -/
def matches_price_threshold (title : String) (pricePln : Option Nat) : Bool :=
  match pricePln with
  | none => false
  | some p => scanThresholds PRICE_THRESHOLDS (strLower title) p

/-- `contains_required_words(text)`. -/
def contains_required_words (text : String) : Bool :=
  if MUST_CONTAIN.isEmpty then true
  else MUST_CONTAIN.all (fun word => strContains (strLower text) (strLower word))

/-! ## Offer extraction (`parse_offers_from_html`) -/

/-- One scraped offer, the dict appended by `parse_offers_from_html`. -/
structure Offer where
  id : String
  title : String
  price_text : String
  price : Option Nat
  url : Option String
  location : String
  excerpt : String
deriving Repr, DecidableEq

/-- Python `\w` (a word character) on the ASCII range. -/
def isWordChar (c : Char) : Bool :=
  c.isAlphanum || c = '_'

/-- Longest digit prefix of a char list, together with the remainder. -/
def splitDigits : List Char → List Char × List Char
  | [] => ([], [])
  | c :: t =>
    if c.isDigit then
      let (run, rest) := splitDigits t
      (c :: run, rest)
    else ([], c :: t)

/-- Model of `re.search(r'-([0-9]{6,})\b', s)` on a char list: the leftmost
hyphen followed by a maximal digit run of length at least six whose
following character (if any) is not a word character yields that run as
the captured group. (The greedy `{6,}` can only satisfy the trailing `\b`
by taking the whole maximal run.) -/
def searchNumSuffix : List Char → Option (List Char)
  | [] => none
  | c :: t =>
    if c = '-' then
      let (run, rest) := splitDigits t
      if (decide (6 ≤ run.length) && (match rest with
          | [] => true
          | r :: _ => ! isWordChar r)) = true then
        some run
      else searchNumSuffix t
    else searchNumSuffix t

/-- `re.search(r'-([0-9]{6,})\b', s)` on strings, returning the captured
group. -/
def searchNumSuffixStr (s : String) : Option String :=
  (searchNumSuffix s.data).map String.mk

/-- A candidate element of the extraction loop, as seen through the
selector lookups the loop performs. Each `Option String` field is
`some text` when the corresponding BeautifulSoup lookup finds an element
(holding its stripped text, possibly empty) and `none` otherwise. -/
structure Element where
  /-- `tag.attrs.get('data-id')` when `'data-id' in tag.attrs`. -/
  dataId : Option String := none
  /-- `a['href']` of the resolved anchor (`tag` itself when it is an `a`,
  else the first descendant `a` with an href); `none` when no such anchor. -/
  rawHref : Option String := none
  /-- `a.get_text(strip=True)` of the resolved anchor. -/
  anchorText : Option String := none
  /-- `tag.select_one('h6')` text. -/
  h6Text : Option String := none
  /-- `tag.select_one('h3')` text. -/
  h3Text : Option String := none
  /-- `tag.select_one('.css-1bbgabe')` text. -/
  cssTitleA : Option String := none
  /-- `tag.select_one('.css-16v5mdi')` text. -/
  cssTitleB : Option String := none
  /-- `tag.select_one('[data-testid="ad-price"]')` text. -/
  adPriceText : Option String := none
  /-- `tag.select_one('.price')` text. -/
  priceClassText : Option String := none
  /-- `tag.select_one('.css-10b0gli')` text. -/
  cssPriceText : Option String := none
  /-- `tag.select_one('.css-19yf5ek')` text. -/
  locTextA : Option String := none
  /-- `tag.select_one('.css-nq3w9f')` text. -/
  locTextB : Option String := none
  /-- `tag.select_one('.css-6safw6')` text. -/
  descTextA : Option String := none
  /-- `tag.select_one('.css-1c9m2a9')` text. -/
  descTextB : Option String := none
deriving Repr, DecidableEq

/-- A candidate of the extraction loop: either an element whose lookups
behave as recorded, or one whose processing raises an exception (caught
and skipped by the `try/except` around the loop body). -/
inductive Candidate where
  | elem (e : Element)
  | err
deriving Repr, DecidableEq

/-- The Python `x or y or ...` chain over found-element lookups: the first
`some` wins (a found element is truthy even when its text is empty). -/
def firstFound (l : List (Option String)) : Option String :=
  l.findSome? id

/-- The href after the relative-to-absolute rewrite:
`'https://www.olx.pl' + href` when the href starts with `'/'`. -/
def resolveHref (rawHref : Option String) : Option String :=
  match rawHref with
  | none => none
  | some h => some (if h ≠ "" ∧ strStarts h "/" then "https://www.olx.pl" ++ h else h)

/-- The three-tier id derivation of the extraction loop: the `data-id`
attribute when the key is present; else, when the (rewritten) href is
truthy, the at-least-six-digit numeric suffix of the href; else the last
path segment of the href with trailing slashes stripped. -/
def deriveOfferId (dataId : Option String) (href : Option String) : Option String :=
  match dataId with
  | some v => some v
  | none =>
    match href with
    | some h =>
      if h ≠ "" then
        match searchNumSuffixStr h with
        | some g => some g
        | none => some (String.mk (lastSlashSegment (rstripSlash h.data)))
      else none
    | none => none

/-- The body of the extraction loop for one candidate element: builds the
offer dict, or yields `none` when no truthy offer id could be derived
(`if not offer_id: continue`). -/
def processElement (e : Element) : Option Offer :=
  let href := resolveHref e.rawHref
  let offerId := deriveOfferId e.dataId href
  let title :=
    match firstFound [e.h6Text, e.h3Text, e.cssTitleA, e.cssTitleB] with
    | some t => t
    | none => (e.anchorText).getD ""
  let priceText := (firstFound [e.adPriceText, e.priceClassText, e.cssPriceText]).getD ""
  let priceInt := normalize_price priceText
  let location := (firstFound [e.locTextA, e.locTextB]).getD ""
  let excerpt := (firstFound [e.descTextA, e.descTextB]).getD ""
  match offerId with
  | none => none
  | some oid =>
    if oid = "" then none
    else some ⟨oid, title, priceText, priceInt, href, location, excerpt⟩

/-- The extraction loop of `parse_offers_from_html` over the candidate
list: offers are appended in candidate order; a candidate without a
derivable id is skipped; a candidate whose processing raises is caught,
logged and skipped. -/
def parse_offers_from_html : List Candidate → List Offer
  | [] => []
  | Candidate.err :: rest => parse_offers_from_html rest
  | Candidate.elem e :: rest =>
    match processElement e with
    | some o => o :: parse_offers_from_html rest
    | none => parse_offers_from_html rest

/-! ## Persistence (`load_json` / `save_json`)

The stores are JSON arrays of strings. `json.dumps(data, ensure_ascii=False,
indent=2)` is modelled by `serStrList` (exact for strings that need no
escaping); `json.loads` is modelled by `parseStrList`, a parser covering the
canonical array-of-strings layout that `serStrList` emits (a subset of what
`json.loads` accepts) and rejecting non-JSON garbage. -/

/-- The state of a store file as `load_json` observes it. -/
inductive FileState where
  | missing
  | unreadable
  | content (s : String)
deriving Repr

/-- A JSON string literal without escapes: `'"' ++ s ++ '"'`. -/
def quoteChars (s : List Char) : List Char :=
  '"' :: s ++ ['"']

/-- The item lines of `json.dumps(l, indent=2)` for a nonempty list:
each item on its own line indented by two spaces, comma-separated. -/
def serItems : List (List Char) → List Char
  | [] => []
  | [x] => ' ' :: ' ' :: quoteChars x
  | x :: y :: t => ' ' :: ' ' :: quoteChars x ++ ',' :: '\n' :: serItems (y :: t)

/-- `json.dumps(l, ensure_ascii=False, indent=2)` for a list of strings
(given as char lists) that need no escaping. -/
def serStrList (l : List (List Char)) : List Char :=
  match l with
  | [] => ['[', ']']
  | _ => '[' :: '\n' :: serItems l ++ ['\n', ']']

/-- JSON insignificant whitespace. -/
def isJsonWs (c : Char) : Bool :=
  c = ' ' || c = '\n' || c = '\t' || c = '\r'

/-- Drop leading JSON whitespace. -/
def skipWs (l : List Char) : List Char :=
  l.dropWhile isJsonWs

/-- Parse the body of a string literal (opening quote already consumed)
up to the closing quote. -/
def parseStringBody : List Char → Option (List Char × List Char)
  | [] => none
  | c :: t =>
    if c = '"' then some ([], t)
    else
      match parseStringBody t with
      | some (s, rest) => some (c :: s, rest)
      | none => none

/-- Parse comma-separated string items up to and including the closing
`]` (fuel-indexed to make the recursion structural). -/
def parseItems : Nat → List Char → Option (List (List Char) × List Char)
  | 0, _ => none
  | fuel + 1, l =>
    match skipWs l with
    | '"' :: t =>
      match parseStringBody t with
      | some (s, rest) =>
        match skipWs rest with
        | ',' :: t2 =>
          match parseItems fuel t2 with
          | some (items, rest2) => some (s :: items, rest2)
          | none => none
        | ']' :: t2 => some ([s], t2)
        | _ => none
      | none => none
    | _ => none

/-- Model of `json.loads` restricted to arrays of strings: accepts the
canonical layout emitted by `serStrList`, rejects anything that does not
read as a whole-document string array. -/
def parseStrList (s : String) : Option (List (List Char)) :=
  match skipWs s.data with
  | '[' :: t =>
    match skipWs t with
    | ']' :: rest => if skipWs rest = [] then some [] else none
    | _ =>
      match parseItems (t.length + 1) t with
      | some (items, rest) => if skipWs rest = [] then some items else none
      | none => none
  | _ => none

/-- `load_json(path, default)` for a string-array store: a missing file
yields the default; a read failure or unparseable content is caught and
yields the default; parseable content yields the parsed array. -/
def load_json (file : FileState) (default : List String) : List String :=
  match file with
  | FileState.missing => default
  | FileState.unreadable => default
  | FileState.content s =>
    match parseStrList s with
    | some l => l.map String.mk
    | none => default

/-- `save_json(path, data)` for a string-array store: write the JSON
serialization as the new file content. -/
def save_json (data : List String) : FileState :=
  FileState.content (String.mk (serStrList (data.map String.data)))

/-! ## Poll cycle (`check_once`) -/

/-- Python truthiness of an `Optional[int]`: present and nonzero. -/
def pyTruthyNat (p : Option Nat) : Bool :=
  p.getD 0 ≠ 0

/-- Python truthiness of an `Optional[str]`: present and nonempty. -/
def pyTruthyStr (s : Option String) : Bool :=
  s.getD "" ≠ ""

/-- Python `a or b` on strings: `a` when nonempty, else `b`
(`off.get('excerpt') or off.get('title')`). -/
def pyOrStr (a b : String) : String :=
  if a ≠ "" then a else b

/-- The price line of the message built inside `check_once`: the
`if off['price']: ... elif off['price_text']: ...` chain — the numeric
price when truthy (present and nonzero), else the raw price text when
nonempty, else nothing. -/
def priceLine (price : Option Nat) (priceText : String) : String :=
  if pyTruthyNat price then "💰 " ++ toString (price.getD 0) ++ " zł\n"
  else if priceText ≠ "" then "💰 " ++ priceText ++ "\n"
  else ""

/-- The message text built for one new offer inside `check_once` (body
continued): title line, price line, then optional location/url/excerpt
lines and the trailing id line. -/
def formatMessage (off : Offer) : String :=
  let t1 := "📱 *" ++ off.title ++ "*\n"
  let t2 := t1 ++ priceLine off.price off.price_text
  let t3 := if off.location ≠ "" then t2 ++ "📍 " ++ off.location ++ "\n" else t2
  let t4 := if pyTruthyStr off.url then t3 ++ "🔗 " ++ (off.url.getD "") ++ "\n" else t3
  let t5 :=
    if off.excerpt ≠ "" then
      let ex :=
        if 300 < off.excerpt.length then
          String.mk (off.excerpt.data.take 300) ++ "..."
        else off.excerpt
      t4 ++ "\n" ++ ex ++ "\n"
    else t4
  t5 ++ "\nID: " ++ off.id

/-- The inner filter of `check_once` over the offers parsed from one
query: skip offers already seen, offers failing the price threshold, and
offers failing the required-words check on excerpt-or-title; each
surviving offer contributes its id and formatted message. The seen list is
the one loaded at cycle start: it is not extended while collecting. -/
def offersMatches (seen : List String) : List Offer → List (String × String)
  | [] => []
  | off :: rest =>
    if seen.contains off.id then offersMatches seen rest
    else if ! matches_price_threshold off.title off.price then offersMatches seen rest
    else if ! contains_required_words (pyOrStr off.excerpt off.title) then
      offersMatches seen rest
    else (off.id, formatMessage off) :: offersMatches seen rest

/-- `new_found` accumulated across the configured queries; a query whose
fetch failed (or returned falsy html) is skipped. -/
def cycleMatches (seen : List String) : List (Option (List Offer)) → List (String × String)
  | [] => []
  | none :: qs => cycleMatches seen qs
  | some offers :: qs => offersMatches seen offers ++ cycleMatches seen qs

/-- The delivery fan-out of `check_once`: for each new match, an attempt
to every current subscriber; the per-subscriber `try/except` records a
failure and moves on, so every pair is attempted. Each attempt is recorded
as (chat id, text, delivered?). -/
def sendAll (subs : List Int) (sendOk : Int → String → Bool) :
    List (String × String) → List (Int × String × Bool)
  | [] => []
  | p :: t => subs.map (fun c => (c, p.2, sendOk c p.2)) ++ sendAll subs sendOk t

/-- The observable outcome of one `check_once` run: the in-memory seen
list afterwards, the seen-file write (if any), and the delivery attempts. -/
structure CycleResult where
  seen : List String
  savedSeen : Option (List String)
  sends : List (Int × String × Bool)
deriving Repr, DecidableEq

/-- `check_once`, abstracted over the fetch+parse results per query
(`results`, with `none` for a failed fetch) and the delivery channel
(`sendOk`): collect all new matches, and only when there is at least one,
append all their ids to the seen list, persist it once, and fan out
deliveries. -/
def check_once (seen : List String) (subs : List Int)
    (sendOk : Int → String → Bool) (results : List (Option (List Offer))) :
    CycleResult :=
  let nf := cycleMatches seen results
  if nf.isEmpty then { seen := seen, savedSeen := none, sends := [] }
  else
    let seen2 := seen ++ nf.map Prod.fst
    { seen := seen2
      savedSeen := some seen2
      sends := sendAll subs sendOk nf }

/-! ## Concrete sample data

`sampleElem` mirrors the single listing of the self-test markup in
`run_self_tests`: a bare anchor candidate with an `h3` heading, a
`.price` span and a `.css-6safw6` description. -/

/-- The self-test listing as the extraction loop observes it. -/
def sampleElem : Element :=
  { rawHref := some "/d/oferta/iphone-11-dobry-stan-1200-123456/"
    anchorText := some "iPhone 11 - dobry stan1 200 złbez blokad"
    h3Text := some "iPhone 11 - dobry stan"
    priceClassText := some "1 200 zł"
    descTextA := some "bez blokad" }

/-- The offer extracted from `sampleElem`. -/
def sampleOffer : Offer :=
  { id := "123456"
    title := "iPhone 11 - dobry stan"
    price_text := "1 200 zł"
    price := some 1200
    url := some "https://www.olx.pl/d/oferta/iphone-11-dobry-stan-1200-123456/"
    location := ""
    excerpt := "bez blokad" }

/-- A matching offer used to exercise `check_once` (price 300 is under the
350 threshold of the first `PRICE_THRESHOLDS` entry). -/
def dupOffer : Offer :=
  { id := "123456"
    title := "iphone 11"
    price_text := "300 zł"
    price := some 300
    url := some "https://www.olx.pl/d/oferta/iphone-11-123456/"
    location := ""
    excerpt := "" }

/-! ## Helper lemmas -/

lemma listStarts_nil (l : List Char) : listStarts l [] = true := by
  cases l <;> rfl

lemma listStarts_append (l r : List Char) : listStarts (l ++ r) l = true := by
  induction l with
  | nil => exact listStarts_nil r
  | cons a t ih => simp [listStarts, ih]

lemma processElement_id_ne (e : Element) (o : Offer)
    (h : processElement e = some o) : o.id ≠ "" := by
  simp only [processElement] at h
  cases hd : deriveOfferId e.dataId (resolveHref e.rawHref) with
  | none => rw [hd] at h; simp at h
  | some oid =>
    rw [hd] at h
    by_cases he : oid = ""
    · simp [he] at h
    · simp only [he, if_false] at h
      cases h
      exact he

/-! ## C5 helper lemmas -/

lemma splitOnDot_nodot (l : List Char) (h : ∀ c ∈ l, c ≠ '.') :
    splitOnDot l = [l] := by
  induction l with
  | nil => rfl
  | cons c t ih =>
    have hc : c ≠ '.' := h c (List.mem_cons_self c t)
    have ht : splitOnDot t = [t] := ih (fun x hx => h x (List.mem_cons_of_mem c hx))
    simp [splitOnDot, hc, ht]

lemma splitOnDot_append_dot (I F : List Char) (h : ∀ c ∈ I, c ≠ '.') :
    splitOnDot (I ++ '.' :: F) = I :: splitOnDot F := by
  induction I with
  | nil => simp [splitOnDot]
  | cons c t ih =>
    have hc : c ≠ '.' := h c (List.mem_cons_self c t)
    have ht := ih (fun x hx => h x (List.mem_cons_of_mem c hx))
    have hne : splitOnDot (t ++ '.' :: F) ≠ [] := by
      rw [ht]; exact List.cons_ne_nil _ _
    cases hsp : splitOnDot (t ++ '.' :: F) with
    | nil => exact absurd hsp hne
    | cons hh tt =>
      rw [hsp] at ht
      cases ht
      simp [splitOnDot, hc, hsp]

lemma strData_mk (l : List Char) : (String.mk l).data = l := rfl

lemma map_no_comma (l : List Char) (h : ∀ c ∈ l, c ≠ ',') :
    l.map (fun c => if c = ',' then '.' else c) = l := by
  induction l with
  | nil => rfl
  | cons c t ih =>
    simp [h c (List.mem_cons_self c t),
      ih (fun x hx => h x (List.mem_cons_of_mem c hx))]

lemma isDigit_ne_dot {c : Char} (h : c.isDigit = true) : c ≠ '.' := by
  intro hc
  subst hc
  exact absurd h (by decide)

lemma isDigit_ne_comma {c : Char} (h : c.isDigit = true) : c ≠ ',' := by
  intro hc
  subst hc
  exact absurd h (by decide)

lemma digitVal_le_nine {c : Char} (h : c.isDigit = true) :
    c.toNat - '0'.toNat ≤ 9 := by
  simp only [Char.isDigit, Bool.and_eq_true, decide_eq_true_eq] at h
  have h57 : c.val.toNat ≤ 57 := UInt32.toNat_le_of_le (by norm_num) h.2
  have hc : c.toNat = c.val.toNat := rfl
  have h0 : '0'.toNat = 48 := rfl
  omega

lemma natOfDigits_foldl (Y : List Char) (acc : Nat) :
    Y.foldl (fun a c => a * 10 + (c.toNat - '0'.toNat)) acc =
      acc * 10 ^ Y.length + natOfDigits Y := by
  induction Y generalizing acc with
  | nil => simp [natOfDigits]
  | cons c t ih =>
    simp only [natOfDigits, List.foldl_cons, List.length_cons]
    rw [ih, ih]
    ring

lemma natOfDigits_append (X Y : List Char) :
    natOfDigits (X ++ Y) = natOfDigits X * 10 ^ Y.length + natOfDigits Y := by
  simp only [natOfDigits, List.foldl_append]
  exact natOfDigits_foldl Y _

lemma natOfDigits_lt_pow (Y : List Char) (h : ∀ c ∈ Y, c.isDigit = true) :
    natOfDigits Y < 10 ^ Y.length := by
  induction Y with
  | nil => simp [natOfDigits]
  | cons c t ih =>
    have hd : c.toNat - '0'.toNat ≤ 9 :=
      digitVal_le_nine (h c (List.mem_cons_self c t))
    have ht : natOfDigits t < 10 ^ t.length :=
      ih (fun x hx => h x (List.mem_cons_of_mem c hx))
    have hco : natOfDigits (c :: t) =
        (c.toNat - '0'.toNat) * 10 ^ t.length + natOfDigits t := by
      have h1 : natOfDigits (c :: t) =
          List.foldl (fun a c => a * 10 + (c.toNat - '0'.toNat))
            (0 * 10 + (c.toNat - '0'.toNat)) t := rfl
      rw [h1, natOfDigits_foldl]
      ring
    rw [hco]
    have hmul : (c.toNat - '0'.toNat) * 10 ^ t.length ≤ 9 * 10 ^ t.length :=
      Nat.mul_le_mul_right _ hd
    have hpow : (10 : Nat) ^ (c :: t).length = 10 * 10 ^ t.length := by
      rw [List.length_cons, pow_succ]
      ring
    rw [hpow]
    omega

lemma roundNE_bounds (p q : Nat) (hq : 0 < q) :
    2 * roundNE p q * q ≤ 2 * p + q ∧ 2 * p ≤ 2 * roundNE p q * q + q := by
  obtain ⟨n, r, rfl, hr⟩ : ∃ n r, p = q * n + r ∧ r < q :=
    ⟨p / q, p % q, (Nat.div_add_mod p q).symm, Nat.mod_lt p hq⟩
  have hdiv : (q * n + r) / q = n := by
    rw [Nat.mul_add_div hq, Nat.div_eq_of_lt hr, Nat.add_zero]
  have hmod : (q * n + r) % q = r := by
    rw [Nat.mul_add_mod, Nat.mod_eq_of_lt hr]
  unfold roundNE
  rw [hdiv, hmod]
  by_cases h1 : 2 * r < q
  · rw [if_pos h1]
    constructor
    · nlinarith
    · nlinarith
  · rw [if_neg h1]
    by_cases h2 : q < 2 * r
    · rw [if_pos h2]
      constructor
      · nlinarith
      · nlinarith
    · rw [if_neg h2]
      have htie : 2 * r = q := by omega
      by_cases h3 : n % 2 = 0
      · rw [if_pos h3]
        constructor
        · nlinarith
        · nlinarith
      · rw [if_neg h3]
        constructor
        · nlinarith
        · nlinarith

lemma natLog2_spec : ∀ (fuel n : Nat), 0 < n → n ≤ fuel →
    2 ^ natLog2 fuel n ≤ n ∧ n < 2 ^ (natLog2 fuel n + 1) := by
  intro fuel
  induction fuel with
  | zero => intro n h1 h2; omega
  | succ f ih =>
    intro n h1 h2
    by_cases h : 2 ≤ n
    · simp only [natLog2, if_pos h]
      have hd1 : 0 < n / 2 := Nat.div_pos h (by norm_num)
      have hd2 : n / 2 ≤ f := by
        have := Nat.div_lt_self h1 (by norm_num : 1 < 2)
        omega
      obtain ⟨l1, l2⟩ := ih (n / 2) hd1 hd2
      constructor
      · rw [pow_succ]
        calc 2 ^ natLog2 f (n / 2) * 2 ≤ n / 2 * 2 := Nat.mul_le_mul_right 2 l1
          _ ≤ n := by omega
      · rw [pow_succ]
        omega
    · simp only [natLog2, if_neg h]
      constructor
      · simpa using h1
      · have : n < 2 := by omega
        simpa using this

lemma floorLog2_spec (n : Nat) (h : 0 < n) :
    2 ^ floorLog2 n ≤ n ∧ n < 2 ^ (floorLog2 n + 1) :=
  natLog2_spec n n h (Nat.le_refl n)

lemma natRatLog2_spec (A B : Nat) (hB : 0 < B) (hBA : B ≤ A) :
    B * 2 ^ natRatLog2 A B ≤ A ∧ A < B * 2 ^ (natRatLog2 A B + 1) := by
  obtain ⟨ha1, ha2⟩ := floorLog2_spec A (by omega)
  obtain ⟨hb1, hb2⟩ := floorLog2_spec B hB
  have hmono : floorLog2 B ≤ floorLog2 A := by
    have h1 : 2 ^ floorLog2 B < 2 ^ (floorLog2 A + 1) :=
      lt_of_le_of_lt (le_trans hb1 hBA) ha2
    have h2 := (Nat.pow_lt_pow_iff_right (by norm_num : 1 < 2)).mp h1
    omega
  unfold natRatLog2
  by_cases h : B * 2 ^ (floorLog2 A - floorLog2 B) ≤ A
  · rw [if_pos h]
    refine ⟨h, ?_⟩
    calc A < 2 ^ (floorLog2 A + 1) := ha2
      _ = 2 ^ floorLog2 B * 2 ^ (floorLog2 A - floorLog2 B + 1) := by
          rw [← pow_add]
          congr 1
          omega
      _ ≤ B * 2 ^ (floorLog2 A - floorLog2 B + 1) := Nat.mul_le_mul_right _ hb1
  · rw [if_neg h]
    push_neg at h
    have he0 : 1 ≤ floorLog2 A - floorLog2 B := by
      by_contra hc
      have hz : floorLog2 A - floorLog2 B = 0 := by omega
      rw [hz, pow_zero, Nat.mul_one] at h
      omega
    constructor
    · have hx : B * 2 ^ (floorLog2 A - floorLog2 B - 1) <
          2 ^ (floorLog2 B + 1) * 2 ^ (floorLog2 A - floorLog2 B - 1) :=
        mul_lt_mul_of_pos_right hb2 (by positivity)
      have hy : 2 ^ (floorLog2 B + 1) * 2 ^ (floorLog2 A - floorLog2 B - 1) =
          2 ^ floorLog2 A := by
        rw [← pow_add]
        congr 1
        omega
      calc B * 2 ^ (floorLog2 A - floorLog2 B - 1) ≤ 2 ^ floorLog2 A := by omega
        _ ≤ A := ha1
    · have hy : floorLog2 A - floorLog2 B - 1 + 1 = floorLog2 A - floorLog2 B := by
        omega
      rw [hy]
      exact h

lemma floatTrunc_floor (n r b : Nat) (hb : 0 < b) (hb100 : b ≤ 100) (hr : r < b)
    (hn : n < 2 ^ 46) :
    floatTrunc (n * b + r) b = some n := by
  set a := n * b + r with ha
  by_cases ha0 : a = 0
  · have hble : n ≤ n * b := Nat.le_mul_of_pos_right n hb
    have hn0 : n = 0 := by omega
    rw [ha0]
    simp [floatTrunc, hn0]
  · have ha1 : 0 < a := Nat.pos_of_ne_zero ha0
    simp only [floatTrunc]
    rw [if_neg ha0]
    set A := a * 2 ^ 1074 with hAdef
    have hA2 : 2 ^ 1074 ≤ A := Nat.le_mul_of_pos_left _ ha1
    have hb1074 : b ≤ 2 ^ 1074 := by
      calc b ≤ 100 := hb100
        _ ≤ 2 ^ 7 := by norm_num
        _ ≤ 2 ^ 1074 := Nat.pow_le_pow_right (by norm_num) (by norm_num)
    rw [if_neg (by omega : ¬ A < b)]
    set E := natRatLog2 A b with hEdef
    have hspec := natRatLog2_spec A b hb (by omega)
    have hE_low : 1067 ≤ E := by
      by_contra hc
      push_neg at hc
      have h1 : A < b * 2 ^ (E + 1) := hspec.2
      have h2 : b * 2 ^ (E + 1) ≤ 100 * 2 ^ 1067 :=
        Nat.mul_le_mul hb100 (Nat.pow_le_pow_right (by norm_num) (by omega))
      have h3 : (100 : Nat) * 2 ^ 1067 < 2 ^ 1074 := by
        calc (100 : Nat) * 2 ^ 1067 < 2 ^ 7 * 2 ^ 1067 := by
              have : (100 : Nat) < 2 ^ 7 := by norm_num
              exact mul_lt_mul_of_pos_right this (by positivity)
          _ = 2 ^ 1074 := by rw [← pow_add]
      omega
    have hE_hi : E ≤ 1119 := by
      have haub : a < 2 ^ 46 * b := by
        have h1 : a < (n + 1) * b := by
          rw [Nat.succ_mul]
          omega
        have h2 : (n + 1) * b ≤ 2 ^ 46 * b := Nat.mul_le_mul_right b (by omega)
        omega
      have h1 : b * 2 ^ E ≤ A := hspec.1
      have h2 : A < b * 2 ^ 1120 := by
        rw [hAdef]
        calc a * 2 ^ 1074 < 2 ^ 46 * b * 2 ^ 1074 :=
              mul_lt_mul_of_pos_right haub (by positivity)
          _ = b * 2 ^ 1120 := by
              rw [show (1120 : Nat) = 46 + 1074 from rfl, pow_add]
              ring
      have h3 : 2 ^ E < 2 ^ 1120 :=
        Nat.lt_of_mul_lt_mul_left (a := b) (lt_of_le_of_lt h1 h2)
      have h4 := (Nat.pow_lt_pow_iff_right (by norm_num : 1 < 2)).mp h3
      omega
    rw [if_neg (by omega : ¬ E < 52)]
    rw [if_pos (by omega : E ≤ 1126)]
    set S := 2 ^ (1126 - E) with hSdef
    have hS128 : 128 ≤ S := by
      rw [hSdef]
      calc (128 : Nat) = 2 ^ 7 := by norm_num
        _ ≤ 2 ^ (1126 - E) := Nat.pow_le_pow_right (by norm_num) (by omega)
    have hS0 : 0 < S := by omega
    set m := roundNE (a * S) b with hmdef
    have hround := roundNE_bounds (a * S) b hb
    rw [← hmdef] at hround
    by_cases hr0 : r = 0
    · have hmexact : m = n * S := by
        have hab : a * S = b * (n * S) := by
          rw [ha, hr0]
          ring
        rw [hmdef, hab]
        unfold roundNE
        rw [Nat.mul_mod_right, Nat.mul_div_cancel_left _ hb]
        simp [hb]
      by_cases hbump : m = 2 ^ 53
      · have hnS : n * S = 2 ^ 53 := by rw [← hmexact, hbump]
        have hn1 : 1 ≤ n := by
          by_contra hc
          have hz : n = 0 := by omega
          rw [hz, Nat.zero_mul] at hnS
          exact absurd hnS.symm (by positivity)
        have hSle : S ≤ 2 ^ 53 := by
          calc S ≤ n * S := Nat.le_mul_of_pos_left S hn1
            _ = 2 ^ 53 := hnS
        have hexp : 1126 - E ≤ 53 := by
          rw [hSdef] at hSle
          exact (Nat.pow_le_pow_iff_right (by norm_num)).mp hSle
        have hE1073 : 1073 ≤ E := by omega
        simp only [if_pos hbump]
        rw [if_neg (by omega : ¬ 2097 < E + 1)]
        rw [if_neg (by omega : ¬ 1126 ≤ E + 1)]
        have hn_eq : n = 2 ^ 53 / S := by
          rw [← hnS, Nat.mul_div_cancel n hS0]
        congr 1
        rw [show 1126 - (E + 1) = 1125 - E from by omega]
        rw [Nat.pow_div (by omega) (by norm_num)]
        rw [hn_eq, hSdef, Nat.pow_div hexp (by norm_num)]
        congr 1
        omega
      · simp only [if_neg hbump]
        rw [if_neg (by omega : ¬ 2097 < E)]
        rw [if_neg (by omega : ¬ 1126 ≤ E)]
        rw [hmexact, Nat.mul_div_cancel n hS0]
    · have hr1 : 1 ≤ r := Nat.pos_of_ne_zero hr0
      have hlow : n * S < m := by
        by_contra hc
        push_neg at hc
        have h1 : 2 * (a * S) ≤ 2 * m * b + b := hround.2
        have h2 : a * S = n * S * b + r * S := by
          rw [ha]
          ring
        have h3 : 2 * m * b ≤ 2 * (n * S) * b := by nlinarith
        have h5 : S ≤ r * S := Nat.le_mul_of_pos_left S hr1
        nlinarith
      have hup : m < (n + 1) * S := by
        have h1 : 2 * m * b ≤ 2 * (a * S) + b := hround.1
        have h2 : a * S = n * S * b + r * S := by
          rw [ha]
          ring
        have h3 : r * S + S ≤ b * S := by
          have hx : (r + 1) * S ≤ b * S := Nat.mul_le_mul_right S (by omega)
          nlinarith
        have h4 : b < 2 * S := by nlinarith
        have h5 : 2 * m * b < 2 * ((n + 1) * S) * b := by nlinarith
        have h6 : b * (2 * m) < b * (2 * ((n + 1) * S)) := by nlinarith
        have h7 : 2 * m < 2 * ((n + 1) * S) := Nat.lt_of_mul_lt_mul_left h6
        omega
      by_cases hbump : m = 2 ^ 53
      · by_cases hE1073 : 1073 ≤ E
        · exfalso
          have hSd : S ∣ 2 ^ 53 := by
            rw [hSdef]
            exact pow_dvd_pow 2 (by omega)
          obtain ⟨k, hk⟩ := hSd
          rw [hbump, hk] at hlow hup
          have h1 : n < k := by nlinarith
          have h2 : k < n + 1 := by nlinarith
          omega
        · push_neg at hE1073
          have hSbig : 2 ^ 54 ≤ S := by
            rw [hSdef]
            exact Nat.pow_le_pow_right (by norm_num) (by omega)
          have hn0 : n = 0 := by
            by_contra hc
            have h1 : S ≤ n * S := Nat.le_mul_of_pos_left S (by omega)
            rw [hbump] at hlow
            have h2 : (2 : Nat) ^ 53 < 2 ^ 54 := by norm_num
            omega
          simp only [if_pos hbump]
          rw [if_neg (by omega : ¬ 2097 < E + 1)]
          rw [if_neg (by omega : ¬ 1126 ≤ E + 1)]
          have hlt : (2 : Nat) ^ 52 < 2 ^ (1126 - (E + 1)) :=
            Nat.pow_lt_pow_right (by norm_num) (by omega)
          rw [Nat.div_eq_of_lt hlt, hn0]
      · simp only [if_neg hbump]
        rw [if_neg (by omega : ¬ 2097 < E)]
        rw [if_neg (by omega : ¬ 1126 ≤ E)]
        congr 1
        exact Nat.div_eq_of_lt_le (le_of_lt hlow) hup

/-! ## C6 helper lemmas -/

lemma scanThresholds_no_match (table : List (String × Nat)) (tl : String) (p : Nat)
    (h : ∀ e ∈ table, strContains tl e.1 = false) :
    scanThresholds table tl p = false := by
  induction table with
  | nil => rfl
  | cons e t ih =>
    obtain ⟨k, m⟩ := e
    have hk : strContains tl k = false := h (k, m) (List.mem_cons_self _ _)
    simp only [scanThresholds, hk]
    simp only [Bool.false_eq_true, if_false]
    exact ih (fun x hx => h x (List.mem_cons_of_mem _ hx))

lemma scanThresholds_first (pre post : List (String × Nat)) (k : String) (m : Nat)
    (tl : String) (p : Nat)
    (hpre : ∀ e ∈ pre, strContains tl e.1 = false)
    (hk : strContains tl k = true) :
    scanThresholds (pre ++ (k, m) :: post) tl p = decide (p ≤ m) := by
  induction pre with
  | nil => simp [scanThresholds, hk]
  | cons e t ih =>
    obtain ⟨k2, m2⟩ := e
    have hk2 : strContains tl k2 = false := hpre (k2, m2) (List.mem_cons_self _ _)
    simp only [List.cons_append, scanThresholds, hk2]
    simp only [Bool.false_eq_true, if_false]
    exact ih (fun x hx => hpre x (List.mem_cons_of_mem _ hx))

/-! ## Claim theorems -/

/-- Counterexample to C5 as stated: the code does not always truncate the
decimal. The float detour first rounds the value to the nearest IEEE-754
double, so `0.99999999999999999` (whose truncation is 0) normalizes to 1,
and `9007199254740993.` (truncation 9007199254740993, an integer one past
2 to the 53rd) normalizes to 9007199254740992. -/
theorem normalize_price_rounds_counterexample :
    normalize_price "0.99999999999999999" = some 1 ∧
    ¬ normalize_price "0.99999999999999999" = some 0 ∧
    normalize_price "9007199254740993." = some 9007199254740992 ∧
    ¬ normalize_price "9007199254740993." = some 9007199254740993 := by
  refine ⟨by decide, by decide, by decide, by decide⟩

/-- C5, amended. Normalization strips non-digit/comma/period characters,
treats commas as periods and joins all but the last period-separated
segment, as claimed; but the resulting decimal is parsed as an IEEE-754
double (round to nearest, ties to even) before the `int` truncation, so
truncation rather than rounding is guaranteed only while the double stays
within the integer part's unit interval: for every price string whose
integer part is below 2 to the 46th and whose fractional part has at most
two digits — which covers currency amounts — the result is exactly the
integer part; concretely `normalize_price` maps `2,345.67` to 2345,
`1 200 zł` to 1200 and `~ 999` to 999. -/
theorem normalize_price_truncates_bounded :
    (∀ (I F : List Char), I ≠ [] → I.all Char.isDigit = true →
      F.all Char.isDigit = true → natOfDigits I < 2 ^ 46 → F.length ≤ 2 →
      normalize_price (String.mk (I ++ '.' :: F)) = some (natOfDigits I)) ∧
    normalize_price "2,345.67" = some 2345 ∧
    normalize_price "1 200 zł" = some 1200 ∧
    normalize_price "~ 999" = some 999 ∧
    normalize_price "" = none := by
  refine ⟨?_, by decide, by decide, by decide, by decide⟩
  intro I F hI hId hFd hn46 hF2
  have hdI : ∀ c ∈ I, c.isDigit = true := fun c hc => by
    have := List.all_eq_true.mp hId c hc
    simpa using this
  have hdF : ∀ c ∈ F, c.isDigit = true := fun c hc => by
    have := List.all_eq_true.mp hFd c hc
    simpa using this
  have hne : String.mk (I ++ '.' :: F) ≠ "" := by
    intro hc
    have hd := congrArg String.data hc
    simp [strData_mk] at hd
  have hfilter :
      List.filter (fun c => c.isDigit || c = ',' || c = '.') (I ++ '.' :: F) =
        I ++ '.' :: F := by
    rw [List.filter_eq_self]
    intro a ha
    rcases List.mem_append.mp ha with h1 | h2
    · simp [hdI a h1]
    · rcases List.mem_cons.mp h2 with rfl | h3
      · simp
      · simp [hdF a h3]
  have hnilne : I ++ '.' :: F ≠ [] := by simp
  have hmap :
      List.map (fun c => if c = ',' then '.' else c) (I ++ '.' :: F) =
        I ++ '.' :: F := by
    apply map_no_comma
    intro c hc
    rcases List.mem_append.mp hc with h1 | h2
    · exact isDigit_ne_comma (hdI c h1)
    · rcases List.mem_cons.mp h2 with rfl | h3
      · decide
      · exact isDigit_ne_comma (hdF c h3)
  have hsplit : splitOnDot (I ++ '.' :: F) = [I, F] := by
    rw [splitOnDot_append_dot I F (fun c hc => isDigit_ne_dot (hdI c hc)),
      splitOnDot_nodot F (fun c hc => isDigit_ne_dot (hdF c hc))]
  have hfl : pyFloatTruncInt (I ++ '.' :: F) = some (natOfDigits I) := by
    simp only [pyFloatTruncInt, hsplit]
    have hcond : (I ++ F) ≠ [] ∧ (I ++ F).all Char.isDigit = true := by
      constructor
      · intro hc
        exact hI (List.append_eq_nil.mp hc).1
      · rw [List.all_append, hId, hFd]
        rfl
    rw [if_pos hcond, natOfDigits_append I F]
    exact floatTrunc_floor (natOfDigits I) (natOfDigits F) (10 ^ F.length)
      (by positivity)
      (by calc (10 : Nat) ^ F.length ≤ 10 ^ 2 :=
              Nat.pow_le_pow_right (by norm_num) hF2
            _ = 100 := by norm_num)
      (natOfDigits_lt_pow F hdF) hn46
  simp only [normalize_price, strData_mk]
  rw [if_neg hne, hfilter]
  rw [if_neg hnilne, hmap, hsplit]
  simp only [List.length_cons, List.length_nil]
  rw [if_neg (by decide : ¬ (0 + 1 + 1 > 2))]
  rw [hfl]

/-- C5 amended witness: the bounded truncation statement applied at
integer part 7 and fractional part 9 (7.9 normalizes to 7, not 8). -/
theorem normalize_price_truncates_bounded_witness :
    normalize_price (String.mk (['7'] ++ '.' :: ['9'])) = some (natOfDigits ['7']) :=
  normalize_price_truncates_bounded.1 ['7'] ['9'] (by decide) (by decide)
    (by decide) (by decide) (by decide)

/-- C6. The match filter returns false when the price is absent;
otherwise it scans the threshold table in its defined order and the first
entry whose key is a substring of the lowered title alone decides the
result as price less-or-equal threshold; no matching key gives false.
Concretely the iphone-11 row (threshold 350) makes 350 match and 351 not. -/
theorem matches_price_threshold_spec :
    matches_price_threshold "iPhone 11 super" (some 350) = true ∧
    matches_price_threshold "iPhone 11 super" (some 351) = false ∧
    (∀ t, matches_price_threshold t none = false) ∧
    (∀ (t : String) (p : Nat) (pre post : List (String × Nat)) (k : String) (m : Nat),
      PRICE_THRESHOLDS = pre ++ (k, m) :: post →
      (∀ e ∈ pre, strContains (strLower t) e.1 = false) →
      strContains (strLower t) k = true →
      matches_price_threshold t (some p) = decide (p ≤ m)) ∧
    (∀ (t : String) (p : Nat),
      (∀ e ∈ PRICE_THRESHOLDS, strContains (strLower t) e.1 = false) →
      matches_price_threshold t (some p) = false) := by
  refine ⟨by decide, by decide, fun t => rfl, ?_, ?_⟩
  · intro t p pre post k m htab hpre hk
    show scanThresholds PRICE_THRESHOLDS (strLower t) p = decide (p ≤ m)
    rw [htab]
    exact scanThresholds_first pre post k m (strLower t) p hpre hk
  · intro t p h
    show scanThresholds PRICE_THRESHOLDS (strLower t) p = false
    exact scanThresholds_no_match PRICE_THRESHOLDS (strLower t) p h

/-- C6 witness: a title matching no key of the table is rejected at any
price. -/
theorem matches_price_threshold_spec_witness :
    matches_price_threshold "zzz" (some 5) = false :=
  matches_price_threshold_spec.2.2.2.2 "zzz" 5 (by decide)

/-- C7. A failure while processing one candidate element is caught and
that candidate is skipped; extraction of all remaining candidates
continues: inserting a raising candidate anywhere in the batch leaves the
extraction result of the other candidates untouched. -/
theorem extraction_isolates_errors (xs ys : List Candidate) :
    parse_offers_from_html (xs ++ Candidate.err :: ys) =
      parse_offers_from_html (xs ++ ys) := by
  induction xs with
  | nil => rfl
  | cons c t ih =>
    cases c with
    | err =>
      simp only [List.cons_append, parse_offers_from_html]
      exact ih
    | elem e =>
      cases hp : processElement e with
      | none =>
        simp only [List.cons_append, parse_offers_from_html, hp, List.append_eq]
        exact ih
      | some o =>
        simp only [List.cons_append, parse_offers_from_html, hp, List.append_eq]
        rw [ih]

/-- C9. Every Offer record returned by extraction has a nonempty id:
a candidate for which no truthy identifier could be derived is dropped. -/
theorem extraction_ids_nonempty :
    ∀ (cands : List Candidate), ∀ o ∈ parse_offers_from_html cands, o.id ≠ "" := by
  intro cands
  induction cands with
  | nil => intro o ho; simp [parse_offers_from_html] at ho
  | cons c t ih =>
    intro o ho
    cases c with
    | err =>
      exact ih o (by simpa [parse_offers_from_html] using ho)
    | elem e =>
      cases hp : processElement e with
      | none =>
        simp only [parse_offers_from_html, hp] at ho
        exact ih o ho
      | some o2 =>
        simp only [parse_offers_from_html, hp] at ho
        rcases List.mem_cons.mp ho with rfl | h3
        · exact processElement_id_ne e o hp
        · exact ih o h3

/-- C9 witness: the offer extracted from the self-test listing has a
nonempty id. -/
theorem extraction_ids_nonempty_witness : sampleOffer.id ≠ "" :=
  extraction_ids_nonempty [Candidate.elem sampleElem] sampleOffer (by decide)

/-- C10. When the normalized price is the integer 0, the message built by
`check_once` omits the numeric price line — the formatter tests Python
truthiness of the price, and 0 is falsy exactly like an absent price — and
the price line instead shows the raw price text when it is nonempty. -/
theorem zero_price_message (off : Offer) (h : off.price = some 0) :
    formatMessage off = formatMessage { off with price := none } ∧
    priceLine off.price off.price_text = priceLine none off.price_text ∧
    (off.price_text ≠ "" →
      priceLine off.price off.price_text = "💰 " ++ off.price_text ++ "\n") := by
  refine ⟨?_, ?_, ?_⟩
  · simp only [formatMessage]
    simp [h, priceLine, pyTruthyNat]
  · simp [h, priceLine, pyTruthyNat]
  · intro hpt
    simp [h, priceLine, pyTruthyNat, hpt]

/-- C10 witness: the zero-price behavior at a concrete offer with raw
price text. -/
theorem zero_price_message_witness :
    formatMessage { dupOffer with price := some 0 } =
      formatMessage { dupOffer with price := none } ∧
    priceLine (some 0) "300 zł" = "💰 " ++ "300 zł" ++ "\n" := by
  have h := zero_price_message { dupOffer with price := some 0 } rfl
  exact ⟨h.1, h.2.2 (by decide)⟩

/-- C2. The offer id is derived by a three-tier fallback: the `data-id`
attribute when present; else the at-least-six-digit numeric suffix of the
listing URL; else the last path segment of the URL. For the self-test
markup, whose single listing URL ends in the six-digit suffix 123456,
extraction returns exactly one Offer whose id is that suffix, whose title
contains the product name case-insensitively, and whose price is the
normalized price of its price element. -/
theorem offer_id_three_tier :
    (∀ (e : Element) (d : String), e.dataId = some d →
      deriveOfferId e.dataId (resolveHref e.rawHref) = some d) ∧
    (∀ (dataId href : Option String) (h g : String), dataId = none →
      href = some h → h ≠ "" → searchNumSuffixStr h = some g →
      deriveOfferId dataId href = some g) ∧
    (∀ (dataId href : Option String) (h : String), dataId = none →
      href = some h → h ≠ "" → searchNumSuffixStr h = none →
      deriveOfferId dataId href =
        some (String.mk (lastSlashSegment (rstripSlash h.data)))) ∧
    parse_offers_from_html [Candidate.elem sampleElem] = [sampleOffer] ∧
    sampleOffer.id = "123456" ∧
    searchNumSuffixStr (sampleOffer.url.getD "") = some "123456" ∧
    strContains (strLower sampleOffer.title) "iphone 11" = true ∧
    sampleOffer.price = normalize_price sampleOffer.price_text := by
  refine ⟨?_, ?_, ?_, by decide, rfl, by decide, by decide, by decide⟩
  · intro e d hd
    simp [deriveOfferId, hd]
  · intro dataId href h g h1 h2 h3 h4
    subst h1; subst h2
    simp [deriveOfferId, h3, h4]
  · intro dataId href h h1 h2 h3 h4
    subst h1; subst h2
    simp [deriveOfferId, h3, h4]

/-- C2 witness: the second tier at the self-test URL. -/
theorem offer_id_three_tier_witness :
    deriveOfferId none
      (some "https://www.olx.pl/d/oferta/iphone-11-dobry-stan-1200-123456/") =
      some "123456" :=
  offer_id_three_tier.2.1 none
    (some "https://www.olx.pl/d/oferta/iphone-11-dobry-stan-1200-123456/")
    "https://www.olx.pl/d/oferta/iphone-11-dobry-stan-1200-123456/" "123456"
    rfl rfl (by decide) (by decide)

/-- C4. A poll cycle that finds zero new matches leaves the in-memory
seen list unchanged, writes nothing to the seen file, and performs no
delivery attempt. -/
theorem no_matches_frame (seen : List String) (subs : List Int)
    (sendOk : Int → String → Bool) (results : List (Option (List Offer)))
    (h : cycleMatches seen results = []) :
    check_once seen subs sendOk results =
      { seen := seen, savedSeen := none, sends := [] } := by
  simp [check_once, h]

/-- C4 witness: a cycle whose only offer is already seen mutates
nothing. -/
theorem no_matches_frame_witness :
    check_once ["123456"] [1] (fun _ _ => true) [some [dupOffer]] =
      { seen := ["123456"], savedSeen := none, sends := [] } :=
  no_matches_frame ["123456"] [1] (fun _ _ => true) [some [dupOffer]] (by decide)

/-- C3. In a cycle with one new match and two subscribers where delivery
to the first fails, the second is still attempted and succeeds, and the
matched id ends up in the seen list exactly once. -/
theorem delivery_failure_isolated (seen : List String) (c1 c2 : Int)
    (sendOk : Int → String → Bool) (results : List (Option (List Offer)))
    (oid txt : String)
    (hnf : cycleMatches seen results = [(oid, txt)])
    (hseen : oid ∉ seen)
    (h1 : sendOk c1 txt = false)
    (h2 : sendOk c2 txt = true) :
    (check_once seen [c1, c2] sendOk results).sends =
      [(c1, txt, false), (c2, txt, true)] ∧
    (check_once seen [c1, c2] sendOk results).seen.count oid = 1 := by
  constructor
  · simp [check_once, hnf, sendAll, h1, h2]
  · simp only [check_once, hnf, List.isEmpty_cons, Bool.false_eq_true, if_false,
      List.map_cons, List.map_nil]
    rw [List.count_append, List.count_eq_zero.mpr hseen]
    simp

/-- C3 witness: the spec scenario at concrete values — subscriber 1
unreachable, subscriber 2 reachable. -/
theorem delivery_failure_isolated_witness :
    (check_once [] [1, 2] (fun c _ => decide (c = 2)) [some [dupOffer]]).sends =
      [(1, formatMessage dupOffer, false), (2, formatMessage dupOffer, true)] ∧
    (check_once [] [1, 2] (fun c _ => decide (c = 2)) [some [dupOffer]]).seen.count
      "123456" = 1 :=
  delivery_failure_isolated [] 1 2 (fun c _ => decide (c = 2)) [some [dupOffer]]
    "123456" (formatMessage dupOffer) (by decide) (by decide) (by decide) (by decide)

/-! ## C1: seen-set marking -/

lemma offersMatches_not_seen (seen : List String) (offers : List Offer) :
    ∀ p ∈ offersMatches seen offers, seen.contains p.1 = false := by
  induction offers with
  | nil => intro p hp; simp [offersMatches] at hp
  | cons off t ih =>
    intro p hp
    by_cases h1 : seen.contains off.id = true
    · rw [offersMatches, if_pos h1] at hp
      exact ih p hp
    · rw [offersMatches, if_neg h1] at hp
      by_cases h2 : (! matches_price_threshold off.title off.price) = true
      · rw [if_pos h2] at hp
        exact ih p hp
      · rw [if_neg h2] at hp
        by_cases h3 :
            (! contains_required_words (pyOrStr off.excerpt off.title)) = true
        · rw [if_pos h3] at hp
          exact ih p hp
        · rw [if_neg h3] at hp
          rcases List.mem_cons.mp hp with rfl | h4
          · exact Bool.not_eq_true _ ▸ Bool.eq_false_iff.mpr h1
          · exact ih p h4

lemma cycleMatches_not_seen (seen : List String)
    (results : List (Option (List Offer))) :
    ∀ p ∈ cycleMatches seen results, seen.contains p.1 = false := by
  induction results with
  | nil => intro p hp; simp [cycleMatches] at hp
  | cons r t ih =>
    intro p hp
    cases r with
    | none =>
      rw [cycleMatches] at hp
      exact ih p hp
    | some offers =>
      rw [cycleMatches] at hp
      rcases List.mem_append.mp hp with h1 | h2
      · exact offersMatches_not_seen seen offers p h1
      · exact ih p h2

/-- C1 counterexample: when the same matching offer is produced under two
search queries within one poll cycle, its id is appended twice to the
seen list — the count afterwards is 2, not 1 as the claim states. -/
theorem seen_marking_counterexample :
    ((check_once [] [1] (fun _ _ => true)
        [some [dupOffer], some [dupOffer]]).seen).count "123456" = 2 ∧
    ¬ ((check_once [] [1] (fun _ _ => true)
        [some [dupOffer], some [dupOffer]]).seen).count "123456" = 1 := by
  decide

/-- C1 amended: marking is idempotent across poll cycles — an id already
present in the seen list is filtered out before notification and never
appended again, so its multiplicity never changes once present; within a
single cycle, however, a twice-produced id is appended twice. -/
theorem seen_marking_idempotent_across_cycles (seen : List String)
    (subs : List Int) (sendOk : Int → String → Bool)
    (results : List (Option (List Offer))) (id0 : String) (h : id0 ∈ seen) :
    ((check_once seen subs sendOk results).seen).count id0 = seen.count id0 := by
  unfold check_once
  cases hnf : cycleMatches seen results with
  | nil => simp
  | cons p t =>
    simp only [List.isEmpty_cons, Bool.false_eq_true, if_false]
    rw [List.count_append]
    have hz : ((p :: t).map Prod.fst).count id0 = 0 := by
      rw [List.count_eq_zero]
      intro hmem
      rcases List.mem_map.mp hmem with ⟨q, hq, hq1⟩
      have hns := cycleMatches_not_seen seen results q (hnf ▸ hq)
      rw [hq1] at hns
      have hc : seen.contains id0 = true := by
        show List.elem id0 seen = true
        exact List.elem_iff.mpr h
      rw [hns] at hc
      exact Bool.false_ne_true hc
    rw [hz]
    omega

/-- C1 amended witness: an already-seen id keeps count 1 even when the
cycle re-produces it twice. -/
theorem seen_marking_idempotent_witness :
    ((check_once ["123456"] [1] (fun _ _ => true)
        [some [dupOffer], some [dupOffer]]).seen).count "123456" =
      (["123456"] : List String).count "123456" :=
  seen_marking_idempotent_across_cycles ["123456"] [1] (fun _ _ => true)
    [some [dupOffer], some [dupOffer]] "123456" (by decide)

/-! ## C8: persistence helper lemmas -/

lemma skipWs_open (L : List Char) : skipWs ('[' :: L) = '[' :: L := rfl

lemma skipWs_item (X : List Char) :
    skipWs ('\n' :: ' ' :: ' ' :: '"' :: X) = '"' :: X := rfl

lemma skipWs_close (X : List Char) : skipWs ('\n' :: ']' :: X) = ']' :: X := rfl

lemma skipWs_comma (X : List Char) : skipWs (',' :: X) = ',' :: X := rfl

lemma skipWs_nil : skipWs [] = [] := rfl

lemma parseStringBody_append (x r : List Char) (h : ∀ c ∈ x, c ≠ '"') :
    parseStringBody (x ++ '"' :: r) = some (x, r) := by
  induction x with
  | nil => rfl
  | cons c t ih =>
    have hc : c ≠ '"' := h c (List.mem_cons_self c t)
    simp only [List.cons_append, parseStringBody, List.append_eq]
    rw [if_neg hc, ih (fun y hy => h y (List.mem_cons_of_mem c hy))]

lemma serItems_len (items : List (List Char)) :
    items.length ≤ (serItems items).length := by
  induction items with
  | nil => simp [serItems]
  | cons x rest ih =>
    cases rest with
    | nil => simp [serItems, quoteChars]
    | cons y t =>
      simp only [serItems, quoteChars, List.length_cons, List.length_append] at *
      omega

lemma parseItems_ser (items : List (List Char)) :
    ∀ (tail : List Char) (fuel : Nat), items ≠ [] →
    (∀ s ∈ items, ∀ c ∈ s, c ≠ '"') → items.length ≤ fuel →
    parseItems fuel ('\n' :: serItems items ++ '\n' :: ']' :: tail) =
      some (items, tail) := by
  induction items with
  | nil => intro tail fuel h; exact absurd rfl h
  | cons x rest ih =>
    intro tail fuel _ hq hf
    cases fuel with
    | zero => simp at hf
    | succ f =>
      have hx : ∀ c ∈ x, c ≠ '"' := hq x (List.mem_cons_self _ _)
      cases rest with
      | nil =>
        have e1 : ('\n' :: serItems [x] ++ '\n' :: ']' :: tail) =
            '\n' :: ' ' :: ' ' :: '"' :: (x ++ '"' :: ('\n' :: ']' :: tail)) := by
          simp [serItems, quoteChars]
        rw [e1]
        simp only [parseItems, skipWs_item,
          parseStringBody_append x ('\n' :: ']' :: tail) hx, skipWs_close]
      | cons y t =>
        have e1 : ('\n' :: serItems (x :: y :: t) ++ '\n' :: ']' :: tail) =
            '\n' :: ' ' :: ' ' :: '"' ::
              (x ++ '"' :: (',' ::
                ('\n' :: serItems (y :: t) ++ '\n' :: ']' :: tail))) := by
          simp [serItems, quoteChars]
        rw [e1]
        simp only [parseItems, skipWs_item,
          parseStringBody_append x
            (',' :: ('\n' :: serItems (y :: t) ++ '\n' :: ']' :: tail)) hx,
          skipWs_comma]
        rw [ih tail f (List.cons_ne_nil y t)
          (fun s hs => hq s (List.mem_cons_of_mem x hs))
          (by simp at hf ⊢; omega)]

lemma parseStrList_ser (l : List (List Char))
    (hq : ∀ s ∈ l, ∀ c ∈ s, c ≠ '"') :
    parseStrList (String.mk (serStrList l)) = some l := by
  cases l with
  | nil => rfl
  | cons x rest =>
    have hlen : (x :: rest).length ≤
        ('\n' :: serItems (x :: rest) ++ '\n' :: ']' :: ([] : List Char)).length + 1 := by
      have := serItems_len (x :: rest)
      simp only [List.length_cons, List.length_append] at *
      omega
    have hpi := parseItems_ser (x :: rest) [] _ (List.cons_ne_nil x rest) hq hlen
    simp only [List.cons_append] at hpi
    simp only [parseStrList, strData_mk, serStrList, List.cons_append, skipWs_open]
    cases rest with
    | nil =>
      have e2 : ('\n' :: (serItems [x] ++ ['\n', ']']) : List Char) =
          '\n' :: ' ' :: ' ' :: '"' :: (x ++ '"' :: '\n' :: ']' :: []) := by
        simp [serItems, quoteChars]
      rw [e2] at hpi ⊢
      simp only [skipWs_item]
      rw [hpi]
      simp [skipWs_nil]
    | cons y t =>
      have e2 : ('\n' :: (serItems (x :: y :: t) ++ ['\n', ']']) : List Char) =
          '\n' :: ' ' :: ' ' :: '"' :: (x ++ '"' :: ',' ::
            ('\n' :: (serItems (y :: t) ++ '\n' :: ']' :: []))) := by
        simp [serItems, quoteChars]
      rw [e2] at hpi ⊢
      simp only [skipWs_item]
      rw [hpi]
      simp [skipWs_nil]

/-- C8. Loading a store file that is missing, unreadable, or corrupt (not
valid JSON, e.g. the content `oops`) yields the given default rather than
failing; and a successfully saved store reloads to the same value (for id
strings that need no JSON escaping). -/
theorem store_load_fallback_roundtrip :
    (∀ d, load_json FileState.missing d = d) ∧
    (∀ d, load_json FileState.unreadable d = d) ∧
    (∀ s d, parseStrList s = none → load_json (FileState.content s) d = d) ∧
    parseStrList "oops" = none ∧
    (∀ (l d : List String),
      (∀ s ∈ l, ∀ c ∈ s.data, c ≠ '"' ∧ c ≠ '\\' ∧ ' ' ≤ c) →
      load_json (save_json l) d = l) := by
  refine ⟨fun d => rfl, fun d => rfl, ?_, by decide, ?_⟩
  · intro s d h
    simp [load_json, h]
  · intro l d h
    have hq : ∀ s ∈ l.map String.data, ∀ c ∈ s, c ≠ '"' := by
      intro s hs c hc
      rcases List.mem_map.mp hs with ⟨str, hstr, rfl⟩
      exact (h str hstr c hc).1
    simp only [load_json, save_json, parseStrList_ser (l.map String.data) hq,
      List.map_map]
    have hid : (String.mk ∘ String.data) = id :=
      funext (fun s => by cases s; rfl)
    rw [hid, List.map_id]

/-- C8 witness: the round trip at a concrete seen-id store. -/
theorem store_load_roundtrip_witness :
    load_json (save_json ["123456"]) [] = ["123456"] :=
  store_load_fallback_roundtrip.2.2.2.2 ["123456"] [] (by decide)

end OlxBot
